import Mathlib

/-!
Verification of the OpenTimestamps client proof-lifecycle engine
(`otsclient/cmds.py`) against its specification.

The proof-DAG data model (`Timestamp`, `Attestation`, operations, merge,
`all_attestations`) lives in the external `opentimestamps` library, not in
this repository's sources; those parts are modelled from the spec (§3) and
are marked `Modelled from the spec:` in their doc comments.  All engine
functions (`is_timestamp_complete`, `upgrade_timestamp`,
`discard_attestations`, `discard_suboptimal`, `prune_tree`,
`prune_timestamp`, `prune_command`, `create_timestamp`, `verify_timestamp`)
are translated directly from `src/otsclient/cmds.py`.
-/

set_option maxHeartbeats 1000000

namespace OtsClient

/-- A message digest: a byte sequence, modelled as a list of naturals. -/
abbrev Msg := List Nat

/-- Modelled from the spec: an attestation is a tagged variant —
`Pending(calendar_uri)` (provisional), `ChainBlockHeader(chain, height)`
for the Bitcoin and Litecoin chains (terminal), or `Unknown` (opaque,
preserved).  The `opentimestamps.core.notary` classes are not part of this
repository's sources. -/
inductive Attestation where
  | pending (uri : String)
  | bitcoin (height : Nat)
  | litecoin (height : Nat)
  | unknown (payload : List Nat)
deriving DecidableEq

/-- Modelled from the spec: a proof operation — a deterministic transform
of one byte sequence into another, from a small closed set of variants
(append suffix, prepend a given byte string, hash, hex-encode); operations are
edge labels, equal iff variant and parameters match.  The
`opentimestamps.core.op` classes are not part of this repository's
sources. -/
inductive Op where
  | sha256
  | hexlify
  | append (arg : List Nat)
  | prepend (arg : List Nat)
deriving DecidableEq

/-- The per-edge cost used by `discard_suboptimal` (cmds.py line 622):
`1 + (0 if len(op) == 0 else len(op[0]))` — one byte for the operation tag
plus the length of its argument, if any. -/
def opCost : Op → Nat
  | .sha256 => 1
  | .hexlify => 1
  | .append arg => 1 + arg.length
  | .prepend arg => 1 + arg.length

mutual
/-- Modelled from the spec: a proof node holds the committed digest `msg`,
a set of attestations (modelled as a list), and a mapping from operations
to child proof nodes (modelled as an association sequence in insertion
order, mirroring the Python dict). -/
inductive Timestamp where
  | mk (msg : Msg) (attestations : List Attestation) (ops : OpList)
deriving DecidableEq
/-- The operation mapping of a proof node: an insertion-ordered sequence
of (operation, child) pairs. -/
inductive OpList where
  | nil
  | cons (op : Op) (child : Timestamp) (rest : OpList)
deriving DecidableEq
end

def Timestamp.msg : Timestamp → Msg
  | .mk m _ _ => m

def Timestamp.attestations : Timestamp → List Attestation
  | .mk _ a _ => a

def Timestamp.ops : Timestamp → OpList
  | .mk _ _ o => o

mutual
/-- Modelled from the spec: `Timestamp.all_attestations` — every
(digest, attestation) pair anywhere in the DAG, the node's own attestations
first, then each child subtree in operation-mapping order. -/
def allAttestations : Timestamp → List (Msg × Attestation)
  | .mk m atts ops => atts.map (fun a => (m, a)) ++ allAttestationsOps ops
def allAttestationsOps : OpList → List (Msg × Attestation)
  | .nil => []
  | .cons _ child rest => allAttestations child ++ allAttestationsOps rest
end

/-- Whether an attestation is a Bitcoin block-header attestation
(`attestation.__class__ == BitcoinBlockHeaderAttestation` in the source). -/
def isBitcoinAttestation : Attestation → Bool
  | .bitcoin _ => true
  | _ => false

/-- `is_timestamp_complete` (cmds.py lines 213–221): scans every
attestation of the DAG and returns true iff one of them is a **Bitcoin**
block-header attestation. -/
def isTimestampComplete (stamp : Timestamp) : Bool :=
  (allAttestations stamp).any (fun p => isBitcoinAttestation p.2)

/-- Following the claim's words (spec §4.3): a terminal chain block-header
attestation of any supported chain — Bitcoin or Litecoin. -/
def isChainHeaderAttestation : Attestation → Bool
  | .bitcoin _ => true
  | .litecoin _ => true
  | _ => false

/-- Following the claim's words: completeness as the spec defines it — at
least one terminal chain-header attestation (of any supported chain)
exists anywhere in the DAG. -/
def specCompleteC1 (stamp : Timestamp) : Bool :=
  (allAttestations stamp).any (fun p => isChainHeaderAttestation p.2)

/-- A DAG whose only terminal attestation is a Litecoin block-header
attestation. -/
def ltcOnlyStamp : Timestamp :=
  .mk [0] [] (.cons .sha256 (.mk [1] [.litecoin 100] .nil) .nil)

/-- The operation mapping as a plain association list. -/
def OpList.toList : OpList → List (Op × Timestamp)
  | .nil => []
  | .cons op child rest => (op, child) :: rest.toList

/-- A discard specification as built by `prune_command` (cmds.py 715-735):
either a whole attestation class, or — uniquely for `Pending` — a specific
calendar URI (the wildcard `pending:*` contributes the whole-class form). -/
inductive DiscardSpec where
  | pendingClass
  | pendingUri (uri : String)
  | bitcoinClass
  | litecoinClass
  | unknownClass
deriving DecidableEq

/-- The removal test of `discard_attestations` (cmds.py 597-607): a pending
attestation is removed when the whole `PendingAttestation` class is listed
or when that exact pending attestation (by URI) is listed; any other
attestation is removed exactly when its class is listed. -/
def discardMatches (specs : List DiscardSpec) : Attestation → Bool
  | .pending uri =>
      specs.contains .pendingClass || specs.contains (.pendingUri uri)
  | .bitcoin _ => specs.contains .bitcoinClass
  | .litecoin _ => specs.contains .litecoinClass
  | .unknown _ => specs.contains .unknownClass

mutual
/-- `discard_attestations` (cmds.py 597-610): remove every attestation
matching one of the discard specifications from this node, then recurse
into every child; the operation mapping itself is not modified. -/
def discardAttestations : Timestamp → List DiscardSpec → Timestamp
  | .mk m atts ops, specs =>
      .mk m (atts.filter (fun a => !discardMatches specs a))
        (discardAttestationsOps ops specs)
def discardAttestationsOps : OpList → List DiscardSpec → OpList
  | .nil, _ => .nil
  | .cons op child rest, specs =>
      .cons op (discardAttestations child specs)
        (discardAttestationsOps rest specs)
end

/-- Whether an attestation is a pending (provisional) attestation. -/
def Attestation.pendingP : Attestation → Bool
  | .pending _ => true
  | _ => false

mutual
/-- Following the claim's words: remove every pending attestation at every
node of the DAG and leave every non-pending attestation and the operation
structure unchanged. -/
def stripPending : Timestamp → Timestamp
  | .mk m atts ops =>
      .mk m (atts.filter (fun a => !a.pendingP)) (stripPendingOps ops)
def stripPendingOps : OpList → OpList
  | .nil => .nil
  | .cons op child rest => .cons op (stripPending child) (stripPendingOps rest)
end

/-- An attestation class, the unit of the source's runtime class
dispatch (`attestation.__class__`). -/
inductive AttClass where
  | pendingC
  | bitcoinC
  | litecoinC
  | unknownC
deriving DecidableEq

/-- The class of an attestation. -/
def Attestation.cls : Attestation → AttClass
  | .pending _ => .pendingC
  | .bitcoin _ => .bitcoinC
  | .litecoin _ => .litecoinC
  | .unknown _ => .unknownC

/-- Modelled from the spec: the attestation order used to pick the best
attestation of a comparable kind — for two chain block-header attestations
of the same chain, the one with the lower block height is the smaller
(better) one.  `discard_suboptimal` only ever compares two attestations of
its single target class, so the cross-class cases are never exercised. -/
def attLt : Attestation → Attestation → Bool
  | .bitcoin h1, .bitcoin h2 => decide (h1 < h2)
  | .litecoin h1, .litecoin h2 => decide (h1 < h2)
  | _, _ => false

/-- Look up the child mapped to an operation (`timestamp.ops[op]`). -/
def OpList.lookup : OpList → Op → Option Timestamp
  | .nil, _ => none
  | .cons o c r, op => if o = op then some c else r.lookup op

/-- Remove an operation key from the mapping (`del timestamp.ops[op]`). -/
def OpList.eraseKey : OpList → Op → OpList
  | .nil, _ => .nil
  | .cons o c r, op => if o = op then r else .cons o c (r.eraseKey op)

/-- The child at a given position of the operation mapping. -/
def OpList.childAt : OpList → Nat → Option Timestamp
  | .nil, _ => none
  | .cons _ c _, 0 => some c
  | .cons _ _ r, n + 1 => r.childAt n

mutual
/-- Modelled from the spec: `Timestamp.merge` — defined only when the two
nodes commit the same digest (`none` models the library raising
otherwise); the attestations become the deduplicated union and, for each
operation key appearing on either side, the children are merged
recursively (the unique side's child when only one side has the key). -/
def Timestamp.merge : Timestamp → Timestamp → Option Timestamp
  | .mk m atts ops, .mk m2 atts2 ops2 =>
      if m = m2 then
        match mergeOpLists ops ops2 with
        | some o =>
            some (.mk m (atts ++ atts2.filter (fun x => !atts.contains x)) o)
        | none => none
      else none
/-- Merge two operation mappings: the left mapping's keys in order, each
child merged with the right mapping's child of the same key when present,
then the right mapping's remaining keys in order. -/
def mergeOpLists : OpList → OpList → Option OpList
  | .nil, b => some b
  | .cons op child rest, b =>
      match b.lookup op with
      | none =>
          match mergeOpLists rest b with
          | some o => some (.cons op child o)
          | none => none
      | some bc =>
          match child.merge bc with
          | none => none
          | some mc =>
              match mergeOpLists rest (b.eraseKey op) with
              | some o => some (.cons op mc o)
              | none => none
end

mutual
/-- Remove one occurrence of attestation `a` at the node reached by
following `path` through the operation mapping — the pure counterpart of
the back-edge removal `opt_nod.attestations.remove(opt_att)` in
`discard_suboptimal`, with `opt_nod` represented by its path. -/
def removeAtt : Timestamp → List Op → Attestation → Timestamp
  | .mk m atts ops, [], a => .mk m (atts.erase a) ops
  | .mk m atts ops, op :: rest, a => .mk m atts (removeAttOps ops op rest a)
def removeAttOps : OpList → Op → List Op → Attestation → OpList
  | .nil, _, _, _ => .nil
  | .cons o c r, op, rest, a =>
      if o = op then .cons o (removeAtt c rest a) r
      else .cons o c (removeAttOps r op rest a)
end

/-- Remove one occurrence of attestation `a` at the node reached by a
nonempty path into an operation mapping. -/
def removeAttInOps (l : OpList) (path : List Op) (a : Attestation) : OpList :=
  match path with
  | [] => l
  | op :: rest => removeAttOps l op rest a

/-- Append two operation mappings. -/
def OpList.append : OpList → OpList → OpList
  | .nil, b => b
  | .cons o c r, b => .cons o c (r.append b)

/-- The own-attestation loop of `discard_suboptimal` (cmds.py 641-651):
each attestation of the target class either becomes the new optimum
(removing the previous optimum at its node — the source comment notes the
node's own attestation is "less deep" — but leaving `opt_dep` untouched)
or, being strictly worse, is removed.  Non-target attestations are kept
unchanged. -/
def dsubOwn : List Attestation → AttClass → List Attestation → OpList →
    Option (Attestation × List Op × Nat) →
    List Attestation × OpList × Option (Attestation × List Op × Nat)
  | [], _, kept, ops, cur => (kept, ops, cur)
  | a :: rest, target, kept, ops, cur =>
      if a.cls = target then
        match cur with
        | none => dsubOwn rest target (kept ++ [a]) ops (some (a, [], 0))
        | some (oatt, opath, odep) =>
            if attLt oatt a then
              dsubOwn rest target kept ops (some (oatt, opath, odep))
            else
              match opath with
              | [] =>
                  dsubOwn rest target (kept.erase oatt ++ [a]) ops
                    (some (a, [], odep))
              | _ =>
                  dsubOwn rest target (kept ++ [a])
                    (removeAttInOps ops opath oatt) (some (a, [], odep))
      else dsubOwn rest target (kept ++ [a]) ops cur

mutual
/-- `discard_suboptimal` (cmds.py 613-653), written as a pure rebuild.
Returns the updated subtree together with the surviving optimal candidate
`(opt_att, opt_nod, opt_dep)`, where `opt_nod` is represented by the path
of operations from this subtree's root to the node holding the candidate.
Faithfully to the source, `opt_dep` is updated only in the child loop: the
own-attestation loop (`dsubOwn`) replaces the attestation and the node but
leaves the depth untouched, so when a node's own attestation becomes the
optimum the reported depth is whatever the child loop left behind. -/
def discardSuboptimal (t : Timestamp) (target : AttClass) :
    Timestamp × Option (Attestation × List Op × Nat) :=
  match t with
  | .mk m atts ops =>
      let c := dsubChildren ops target .nil none
      let o := dsubOwn atts target [] c.1 c.2
      (.mk m o.1 o.2.1, o.2.2)
/-- The child loop of `discard_suboptimal` (cmds.py 620-639): children are
processed in mapping order; a strictly worse candidate is removed from its
node immediately, and an equal candidate loses to the one with the
smaller accumulated depth. -/
def dsubChildren : OpList → AttClass → OpList →
    Option (Attestation × List Op × Nat) →
    OpList × Option (Attestation × List Op × Nat)
  | .nil, _, acc, cur => (acc, cur)
  | .cons op child rest, target, acc, cur =>
      let cr := discardSuboptimal child target
      match cr.2 with
      | none => dsubChildren rest target (acc.append (.cons op cr.1 .nil)) cur
      | some (catt, cpath, cdep0) =>
          let cdep := cdep0 + opCost op
          let cp := op :: cpath
          match cur with
          | none =>
              dsubChildren rest target (acc.append (.cons op cr.1 .nil))
                (some (catt, cp, cdep))
          | some (oatt, opath, odep) =>
              if attLt oatt catt then
                dsubChildren rest target
                  (acc.append (.cons op (removeAtt cr.1 cpath catt) .nil)) cur
              else if attLt catt oatt then
                dsubChildren rest target
                  ((removeAttInOps acc opath oatt).append (.cons op cr.1 .nil))
                  (some (catt, cp, cdep))
              else
                if cdep < odep then
                  dsubChildren rest target
                    ((removeAttInOps acc opath oatt).append (.cons op cr.1 .nil))
                    (some (catt, cp, cdep))
                else
                  dsubChildren rest target
                    (acc.append (.cons op (removeAtt cr.1 cpath catt) .nil)) cur
end

mutual
/-- `prune_tree` (cmds.py 656-668), written as a pure bottom-up rebuild:
returns the pruned node together with the `(prunable, changed)` flags.  A
node is prunable when it has no attestations and every child was pruned;
`changed` accumulates, over the children, "the child's own run changed
something or the child itself was pruned". -/
def pruneTree : Timestamp → Timestamp × Bool × Bool
  | .mk m atts ops =>
      let pr := pruneTreeOps ops
      (.mk m atts pr.1, atts.isEmpty && pr.2.1, pr.2.2)
/-- The child loop of `prune_tree`: returns the kept (recursively pruned)
children, whether every child was pruned away, and the accumulated
`changed` flag. -/
def pruneTreeOps : OpList → OpList × Bool × Bool
  | .nil => (.nil, true, false)
  | .cons op child rest =>
      let pc := pruneTree child
      let pr := pruneTreeOps rest
      if pc.2.1 then (pr.1, pr.2.1, true)
      else (.cons op pc.1 pr.1, false, pc.2.2 || pr.2.2)
end

mutual
/-- `directly_verified` (cmds.py 232-238): yield this node if it carries
any attestations; otherwise recurse into its children.  Nodes below an
attestation-carrying node are never yielded. -/
def directlyVerified : Timestamp → List Timestamp
  | .mk m atts ops =>
      if atts.isEmpty then directlyVerifiedOps ops else [.mk m atts ops]
def directlyVerifiedOps : OpList → List Timestamp
  | .nil => []
  | .cons _ child rest => directlyVerified child ++ directlyVerifiedOps rest
end

/-- Whether a pending attestation's calendar resolves in the network pass
(cmds.py 279-290): a nonempty user-specified calendar override list takes
precedence; otherwise the attestation's URI must be in the whitelist, and
the attestation is skipped with a warning if not. -/
def pendingResolves (calendarUrls whitelist : List String) : Attestation → Bool
  | .pending uri => !calendarUrls.isEmpty || whitelist.contains uri
  | _ => false

/-- The digests looked up at a calendar during one network pass of
`upgrade_timestamp` (cmds.py 276-298): for every node yielded by
`directly_verified` carrying at least one pending attestation whose
calendar resolves, the node's digest (`sub_stamp.msg`, line 292) is
queried. -/
def queriedMsgs (calendarUrls whitelist : List String) (t : Timestamp) :
    List Msg :=
  (directlyVerified t).filterMap (fun s =>
    if s.attestations.any (pendingResolves calendarUrls whitelist) then
      some s.msg
    else none)

/-- Follow a path of child positions through the DAG. -/
def followIdx : Timestamp → List Nat → Option Timestamp
  | t, [] => some t
  | t, i :: rest =>
      match t.ops.childAt i with
      | some c => followIdx c rest
      | none => none

/-- The local cache collaborator: a partial map from digest to the best
known proof fragment (`args.cache[msg]`, a `KeyError` modelled as
`none`). -/
abbrev Cache := Msg → Option Timestamp

mutual
/-- The cache pass of `upgrade_timestamp` (cmds.py 249-260): walk every
node of the DAG and merge in whatever the cache holds for the node's
digest; children — including children just added by the merge — are then
walked in turn, as the source's generator visits a node's children only
after the node itself was merged.  The walk depth is bounded by `fuel`
(the Python walk is depth-unbounded and terminates because actual caches
hold finite acyclic fragments; any concrete run below uses ample fuel).
A fragment whose digest disagrees (where the library merge would raise)
leaves the node unchanged; well-formed caches never produce one. -/
def cachePass (cache : Cache) : Nat → Timestamp → Timestamp
  | 0, t => t
  | fuel + 1, t =>
      let t1 :=
        match cache t.msg with
        | some frag => (t.merge frag).getD t
        | none => t
      .mk t1.msg t1.attestations (cachePassOps cache fuel t1.ops)
def cachePassOps (cache : Cache) : Nat → OpList → OpList
  | 0, l => l
  | _ + 1, .nil => .nil
  | fuel + 1, .cons op c r =>
      .cons op (cachePass cache fuel c) (cachePassOps cache fuel r)
end

/-- `get_attestations` (cmds.py 240-241): the set of attestation values
appearing anywhere in the DAG, as a deduplicated list. -/
def attSet (t : Timestamp) : List Attestation :=
  ((allAttestations t).map Prod.snd).dedup

/-- Calendar resolution in the network pass (cmds.py 279-290), returning
the list of calendar URLs to query for a pending attestation's URI. -/
def resolveUrls (calendarUrls whitelist : List String) (uri : String) :
    List String :=
  if !calendarUrls.isEmpty then calendarUrls
  else if whitelist.contains uri then [uri] else []

/-- The inner calendar loop (cmds.py 293-320): query each calendar URL for
the node's digest; `none` models `CommitmentNotFound` or a transport
error, both skipped with a warning; a fragment whose attestation values
are all already known is ignored; otherwise the fragment is merged into
the node (and into the cache, not modelled as it does not affect the
returned DAG or flag) and the new attestation values are recorded. -/
def queryUrls (calendar : String → Msg → Option Timestamp) :
    List String → Timestamp → List Attestation → Bool →
    Timestamp × List Attestation × Bool
  | [], node, existing, found => (node, existing, found)
  | url :: rest, node, existing, found =>
      match calendar url node.msg with
      | none => queryUrls calendar rest node existing found
      | some frag =>
          let newAtts := (attSet frag).filter (fun a => !existing.contains a)
          if newAtts.isEmpty then queryUrls calendar rest node existing found
          else
            queryUrls calendar rest ((node.merge frag).getD node)
              (existing ++ newAtts) true

/-- The attestation loop over one directly-verified node (cmds.py
277-320): only pending attestations are acted on; each resolves to a
calendar URL list and the node accumulates the fragments learned. -/
def processAtts (calendarUrls whitelist : List String)
    (calendar : String → Msg → Option Timestamp) :
    List Attestation → Timestamp → List Attestation → Bool →
    Timestamp × List Attestation × Bool
  | [], node, existing, found => (node, existing, found)
  | a :: rest, node, existing, found =>
      match a with
      | .pending uri =>
          let r := queryUrls calendar (resolveUrls calendarUrls whitelist uri)
            node existing found
          processAtts calendarUrls whitelist calendar rest r.1 r.2.1 r.2.2
      | _ => processAtts calendarUrls whitelist calendar rest node existing found

mutual
/-- One network pass of `upgrade_timestamp` (cmds.py 275-320): process the
nodes yielded by `directly_verified` in order, threading the set of known
attestation values and the `found_new_attestations` flag. -/
def networkPass (calendarUrls whitelist : List String)
    (calendar : String → Msg → Option Timestamp) :
    Timestamp → List Attestation → Bool →
    Timestamp × List Attestation × Bool
  | .mk m atts ops, existing, found =>
      if atts.isEmpty then
        let r := networkPassOps calendarUrls whitelist calendar ops existing found
        (.mk m atts r.1, r.2)
      else
        processAtts calendarUrls whitelist calendar atts (.mk m atts ops)
          existing found
def networkPassOps (calendarUrls whitelist : List String)
    (calendar : String → Msg → Option Timestamp) :
    OpList → List Attestation → Bool →
    OpList × List Attestation × Bool
  | .nil, existing, found => (.nil, existing, found)
  | .cons op c r, existing, found =>
      let rc := networkPass calendarUrls whitelist calendar c existing found
      let rr := networkPassOps calendarUrls whitelist calendar r rc.2.1 rc.2.2
      (.cons op rc.1 rr.1, rr.2)
end

/-- `upgrade_timestamp` (cmds.py 223-335) with `args.wait = false` (one
network pass at most): the aggressive cache pass over every node, then —
unless the DAG is already complete — a single network pass.  Returns the
new DAG and the `changed` flag; faithfully to the source, `changed` is set
only when new attestation *values* were learned (cmds.py 262-264 and
312-314), not when the merge merely added structure. -/
def upgradeTimestamp (calendarUrls whitelist : List String)
    (calendar : String → Msg → Option Timestamp) (cache : Cache)
    (fuel : Nat) (t : Timestamp) : Timestamp × Bool :=
  let existing0 := attSet t
  let t1 := cachePass cache fuel t
  let newFromCache := (attSet t1).filter (fun a => !existing0.contains a)
  let changed0 := !newFromCache.isEmpty
  let existing1 := existing0 ++ newFromCache
  if isTimestampComplete t1 then (t1, changed0)
  else
    let r := networkPass calendarUrls whitelist calendar t1 existing1 false
    (r.1, changed0 || r.2.2)

/-- A result drained from the submission queue of `create_timestamp`: a
worker either put a proof fragment (a `Timestamp`) or an exception
value. -/
inductive SubmitResult where
  | ok (t : Timestamp)
  | err
deriving DecidableEq

/-- The drain-and-merge loop of `create_timestamp` (cmds.py 109-127),
folded over the results drained from the shared queue before the shared
deadline: each result that is a `Timestamp` and merges cleanly into the
working root is merged and counted; every other result (exception values,
fragments for a different digest, whose merge failure the source catches
and logs) is skipped without counting. -/
def drainResults (root : Timestamp) (results : List SubmitResult) :
    Timestamp × Nat :=
  results.foldl
    (fun acc r =>
      match r with
      | .ok t =>
          match acc.1.merge t with
          | some merged => (merged, acc.2 + 1)
          | none => acc
      | .err => acc)
    (root, 0)

/-- The outcome of `create_timestamp` (cmds.py 97-131): an invalid quorum
parameter or an unmet quorum is reported by logging an error and exiting;
each is modelled as a distinct returned outcome (no exception propagates
past the merge loop — every per-calendar failure is caught inside it). -/
inductive StampOutcome where
  | invalidQuorum
  | quorumNotMet
  | success (merged : Timestamp)
deriving DecidableEq

/-- `create_timestamp` (cmds.py 97-131) after the optional wallet path:
with quorum `m` of `n` calendars, fails upfront unless `1 ≤ m ≤ n`; merges
the valid results drained before the deadline and succeeds iff at least
`m` were merged. -/
def createTimestamp (root : Timestamp) (m n : Nat)
    (results : List SubmitResult) : StampOutcome :=
  if m > n || m = 0 then .invalidQuorum
  else
    let d := drainResults root results
    if d.2 < m then .quorumNotMet else .success d.1

/-- `verify_all_attestations` (cmds.py 565-594): every attestation whose
class is listed for verification must check out; the result is false when
the command would abort (`sys.exit(1)`) — a listed-class attestation that
is not a Bitcoin block header, local Bitcoin lookup disabled, or a failed
header check (the `verifier` collaborator abstracts the local node's
`verify_against_blockheader`). -/
def verifyAllAttestations (t : Timestamp) (toVerify : List AttClass)
    (queryLocalBitcoin : Bool) (verifier : Msg → Nat → Bool) : Bool :=
  (allAttestations t).all (fun p =>
    if toVerify.contains p.2.cls then
      match p.2 with
      | .bitcoin h => queryLocalBitcoin && verifier p.1 h
      | _ => false
    else true)

/-- `prune_timestamp` (cmds.py 671-689) after its verification step:
discard the requested attestations, discard suboptimal Bitcoin then
Litecoin block-header attestations, prune dead subtrees; returns the
pruned timestamp with the `(prunable, changed)` flags of `prune_tree`. -/
def pruneTimestamp (t : Timestamp) (toDiscard : List DiscardSpec) :
    Timestamp × Bool × Bool :=
  let t1 := discardAttestations t toDiscard
  let t2 := (discardSuboptimal t1 .bitcoinC).1
  let t3 := (discardSuboptimal t2 .litecoinC).1
  pruneTree t3

/-- The reported outcome of `prune_command` (cmds.py 737-766): a fatal
requested-verification failure, the two distinctly-reported failures
("All attestations have been discarded" when the result is fully
prunable, "Nothing has been discarded" when nothing changed), or
success. -/
inductive PruneOutcome where
  | fatalVerify
  | failEmpty
  | failUnchanged
  | success
deriving DecidableEq

/-- `prune_command` (cmds.py 692-766) after deserialization: runs the
verification step and `prune_timestamp` and decides the outcome; the
second component records whether the pruned proof is persisted (the
original file renamed to `.bak` and the pruned proof written in its
place), which happens only on success — both failure branches exit before
any rename or write. -/
def pruneCommand (t : Timestamp) (toVerify : List AttClass)
    (toDiscard : List DiscardSpec) (queryLocalBitcoin : Bool)
    (verifier : Msg → Nat → Bool) : PruneOutcome × Bool :=
  if !verifyAllAttestations t toVerify queryLocalBitcoin verifier then
    (.fatalVerify, false)
  else
    let r := pruneTimestamp t toDiscard
    if r.2.1 then (.failEmpty, false)
    else if !r.2.2 then (.failUnchanged, false)
    else (.success, true)

/-- The sort key of `verify_timestamp` (cmds.py 391-396): a Bitcoin
block-header attestation sorts by its height; every other attestation —
pending, unknown, and also Litecoin block headers — gets the maximal key
`2^32 - 1`. -/
def attestationKey : Msg × Attestation → Nat
  | (_, .bitcoin h) => h
  | _ => 2 ^ 32 - 1

/-- Stable insertion by `attestationKey`: the new element goes before the
first element of strictly greater key, hence after earlier elements of
equal key — the stability contract of Python's `sorted`. -/
def insertByKey (p : Msg × Attestation) :
    List (Msg × Attestation) → List (Msg × Attestation)
  | [] => [p]
  | q :: rest =>
      if attestationKey q ≤ attestationKey p then q :: insertByKey p rest
      else p :: q :: rest

/-- Python's stable `sorted(..., key=attestation_key)` (cmds.py 403),
modelled as a stable insertion sort. -/
def sortByKey : List (Msg × Attestation) → List (Msg × Attestation)
  | [] => []
  | p :: rest => insertByKey p (sortByKey rest)

/-- The order in which `verify_timestamp` processes the attestations of
the DAG (cmds.py 403). -/
def processedAttestations (t : Timestamp) : List (Msg × Attestation) :=
  sortByKey (allAttestations t)

/-- The block height of a chain block-header attestation of any chain. -/
def chainHeight : Attestation → Option Nat
  | .bitcoin h => some h
  | .litecoin h => some h
  | _ => none

/-- Following the claim's words, the required pairwise relation on the
processing order: chain-header attestations in ascending block-height
order, and no non-chain-header attestation before a chain-header one. -/
def specLeC9 (p q : Msg × Attestation) : Bool :=
  match chainHeight p.2, chainHeight q.2 with
  | some h1, some h2 => decide (h1 ≤ h2)
  | none, some _ => false
  | _, _ => true

/-- Following the claim's words: the processing order is correct when
every pair of positions (earlier, later) satisfies `specLeC9`. -/
def specOrderC9 : List (Msg × Attestation) → Bool
  | [] => true
  | p :: rest => rest.all (specLeC9 p) && specOrderC9 rest

/-- The outcome of one block-explorer height query in `verify_timestamp`
(cmds.py 418-446): a failure anywhere along the two HTTP requests, the
JSON parse or the time parse — or the block's time together with the
merkle root the explorer reports for that height. -/
inductive ExplorerResult where
  | failure
  | ok (time : Nat) (merkleRoot : Msg)

/-- What `verify_timestamp` does with one attestation of the sorted list
when remote block-explorer querying is enabled (cmds.py 403-453). -/
inductive VerifyEvent where
  | ignored
  | skippedManual
  | queriedManual
  | attested (time : Nat)
deriving DecidableEq

/-- The verification loop of `verify_timestamp` (cmds.py 403-453) with
remote block-explorer querying enabled with limit `maxQueries`
(`--query-blockstream N`, truthy only when `N ≥ 1`): pending and
non-Bitcoin attestations take no branch; for a Bitcoin block-header
attestation, once the collected times have reached the limit the
attestation is skipped with manual-verification instructions and no query
is made; otherwise the explorer is queried — a failed query or a merkle
mismatch yields manual instructions without collecting a time, a match
collects the block's time. -/
def verifyLoop (maxQueries : Nat) (explorer : Nat → ExplorerResult) :
    List (Msg × Attestation) → List Nat → List Nat × List VerifyEvent
  | [], times => (times, [])
  | (msg, att) :: rest, times =>
      match att with
      | .bitcoin h =>
          if maxQueries ≤ times.length then
            let r := verifyLoop maxQueries explorer rest times
            (r.1, .skippedManual :: r.2)
          else
            match explorer h with
            | .failure =>
                let r := verifyLoop maxQueries explorer rest times
                (r.1, .queriedManual :: r.2)
            | .ok time root =>
                if root = msg then
                  let r := verifyLoop maxQueries explorer rest (times ++ [time])
                  (r.1, .attested time :: r.2)
                else
                  let r := verifyLoop maxQueries explorer rest times
                  (r.1, .queriedManual :: r.2)
      | _ =>
          let r := verifyLoop maxQueries explorer rest times
          (r.1, .ignored :: r.2)

/-- The remote-explorer part of `verify_timestamp` on a whole DAG:
the loop over the sorted attestations, starting from no collected
times. -/
def verifyTimestampRemote (maxQueries : Nat)
    (explorer : Nat → ExplorerResult) (t : Timestamp) :
    List Nat × List VerifyEvent :=
  verifyLoop maxQueries explorer (processedAttestations t) []

/-- C2's failing input: two branches hold equal Bitcoin attestations
(height 50) — one directly on the node one cheap edge below the root
(true depth cost 1), one two cheap edges below the root (true depth cost
2); the shallow node also has a child with a worse Bitcoin attestation
(height 100) reached over an expensive 8-byte append edge. -/
def cexC2 : Timestamp :=
  .mk [0] []
    (.cons .sha256
      (.mk [1] [.bitcoin 50]
        (.cons (.append [9, 9, 9, 9, 9, 9, 9, 9]) (.mk [2] [.bitcoin 100] .nil)
          .nil))
      (.cons .hexlify
        (.mk [3] [] (.cons .sha256 (.mk [4] [.bitcoin 50] .nil) .nil)) .nil))

/-- C4's failing input: a lone root with one pending attestation. -/
def t4 : Timestamp := .mk [0] [.pending "u"] .nil

/-- C4's cache: holds, for the root digest, a fragment with the same
pending attestation and one new operation edge to a child that carries the
same pending attestation value — so the merge adds structure but no new
attestation value. -/
def frag4 : Timestamp :=
  .mk [0] [.pending "u"] (.cons .sha256 (.mk [7] [.pending "u"] .nil) .nil)

def cache4 : Cache := fun m => if m = [0] then some frag4 else none

/-- A calendar collaborator that never has anything
(`CommitmentNotFound`). -/
def noCalendar : String → Msg → Option Timestamp := fun _ _ => none

/-- C5's counterexample input: the root carries a whitelisted pending
attestation; strictly below it, a node carries another whitelisted pending
attestation (and nothing deeper). -/
def t5 : Timestamp :=
  .mk [0] [.pending "u1"]
    (.cons .sha256 (.mk [1] [.pending "u2"] .nil) .nil)

/-- C9's counterexample input: one node carrying a Litecoin block-header
attestation at height 5 and a Bitcoin block-header attestation at height
10. -/
def t9 : Timestamp := .mk [0] [.litecoin 5, .bitcoin 10] .nil

/-- Witness root and results for C3: three calendars, two valid fragments
for the root digest and one transport error. -/
def w3root : Timestamp := .mk [0] [] .nil

def w3results : List SubmitResult :=
  [.ok (.mk [0] [.pending "a"] .nil), .err, .ok (.mk [0] [.pending "b"] .nil)]

/-- Witness input for C8: a single pending attestation, discarded by
wildcard, leaving the proof fully prunable. -/
def w8t : Timestamp := .mk [0] [.pending "u"] .nil

def w8verifier : Msg → Nat → Bool := fun _ _ => false

/-- Witness inputs for C10: one Bitcoin attestation below the root and an
explorer that confirms height 10 with the matching merkle root. -/
def w10t : Timestamp := .mk [5] [.bitcoin 10] .nil

def w10explorer : Nat → ExplorerResult := fun h =>
  if h = 10 then .ok 1234 [5] else .failure

end OtsClient

namespace OtsClient

/-- C1, counterexample: the DAG `ltcOnlyStamp` contains a terminal
chain-header attestation (a Litecoin block header), so the claim says the
completeness check returns true on it; but `is_timestamp_complete` only
recognises Bitcoin block-header attestations and returns false. -/
theorem C1_counterexample :
    specCompleteC1 ltcOnlyStamp = true ∧ isTimestampComplete ltcOnlyStamp = false := by
  constructor <;> rfl

/-- C1, amended: the Upgrade Engine's completeness check returns true if
and only if at least one **Bitcoin** block-header attestation exists
anywhere in the DAG; terminal attestations of other chains (e.g. Litecoin)
do not make a DAG complete. -/
theorem C1_amended (t : Timestamp) :
    isTimestampComplete t = true ↔
      ∃ p ∈ allAttestations t, isBitcoinAttestation p.2 = true := by
  simp [isTimestampComplete, List.any_eq_true]

theorem discardMatches_pendingClass (a : Attestation) :
    discardMatches [DiscardSpec.pendingClass] a = a.pendingP := by
  cases a <;> simp [discardMatches, Attestation.pendingP]

mutual
theorem discard_pendingClass_eq : ∀ t : Timestamp,
    discardAttestations t [DiscardSpec.pendingClass] = stripPending t
  | .mk m atts ops => by
      simp only [discardAttestations, stripPending,
        discard_pendingClass_ops_eq ops]
      congr 1
      exact List.filter_congr
        (fun a _ => by rw [discardMatches_pendingClass])
theorem discard_pendingClass_ops_eq : ∀ l : OpList,
    discardAttestationsOps l [DiscardSpec.pendingClass] = stripPendingOps l
  | .nil => rfl
  | .cons op child rest => by
      simp only [discardAttestationsOps, stripPendingOps,
        discard_pendingClass_eq child, discard_pendingClass_ops_eq rest]
end

/-- C7: confirmed — discarding `Pending` attestations by wildcard (the
discard list holding the whole `PendingAttestation` class) turns the DAG
into exactly the DAG with every pending attestation removed at every node,
every non-pending attestation kept, and the operation structure
untouched. -/
theorem C7_confirmed (t : Timestamp) :
    discardAttestations t [DiscardSpec.pendingClass] = stripPending t :=
  discard_pendingClass_eq t

theorem isEmpty_append {α : Type _} (l1 l2 : List α) :
    (l1 ++ l2).isEmpty = (l1.isEmpty && l2.isEmpty) := by
  cases l1 <;> rfl

theorem isEmpty_map {α β : Type _} (f : α → β) (l : List α) :
    (l.map f).isEmpty = l.isEmpty := by
  cases l <;> rfl

mutual
theorem pruneTree_prunable_eq : ∀ t : Timestamp,
    (pruneTree t).2.1 = (allAttestations t).isEmpty
  | .mk m atts ops => by
      simp [pruneTree, allAttestations, pruneTreeOps_allPruned_eq ops,
        isEmpty_append, isEmpty_map]
theorem pruneTreeOps_allPruned_eq : ∀ l : OpList,
    (pruneTreeOps l).2.1 = (allAttestationsOps l).isEmpty
  | .nil => rfl
  | .cons op child rest => by
      simp only [allAttestationsOps, isEmpty_append,
        ← pruneTree_prunable_eq child, ← pruneTreeOps_allPruned_eq rest,
        pruneTreeOps]
      cases h : (pruneTree child).2.1 <;> simp [h]
end

mutual
theorem pruneTree_allAtts : ∀ t : Timestamp,
    allAttestations (pruneTree t).1 = allAttestations t
  | .mk m atts ops => by
      simp [pruneTree, allAttestations, pruneTreeOps_allAtts ops]
theorem pruneTreeOps_allAtts : ∀ l : OpList,
    allAttestationsOps (pruneTreeOps l).1 = allAttestationsOps l
  | .nil => rfl
  | .cons op child rest => by
      cases h : (pruneTree child).2.1 with
      | true =>
          have hempty : allAttestations child = [] :=
            List.isEmpty_iff.mp ((pruneTree_prunable_eq child).symm.trans h)
          simp [pruneTreeOps, allAttestationsOps, h,
            pruneTreeOps_allAtts rest, hempty]
      | false =>
          simp [pruneTreeOps, allAttestationsOps, h,
            pruneTree_allAtts child, pruneTreeOps_allAtts rest]
end

theorem pruneTreeOps_toList : ∀ l : OpList,
    (pruneTreeOps l).1.toList =
      (l.toList.filter (fun p => !(allAttestations p.2).isEmpty)).map
        (fun p => (p.1, (pruneTree p.2).1))
  | .nil => rfl
  | .cons op child rest => by
      have hc := pruneTree_prunable_eq child
      by_cases h : (pruneTree child).2.1 = true
      · have : (allAttestations child).isEmpty = true := hc.symm.trans h
        simp [pruneTreeOps, OpList.toList, h, this,
          pruneTreeOps_toList rest]
      · have h' : (pruneTree child).2.1 = false := by
          revert h; cases (pruneTree child).2.1 <;> simp
        have : (allAttestations child).isEmpty = false := hc.symm.trans h'
        simp [pruneTreeOps, OpList.toList, h', this,
          pruneTreeOps_toList rest]

mutual
theorem pruneTree_idem_changed : ∀ t : Timestamp,
    (pruneTree (pruneTree t).1).2.2 = false
  | .mk m atts ops => by
      simp [pruneTree, pruneTreeOps_idem_changed ops]
theorem pruneTreeOps_idem_changed : ∀ l : OpList,
    (pruneTreeOps (pruneTreeOps l).1).2.2 = false
  | .nil => rfl
  | .cons op child rest => by
      by_cases h : (pruneTree child).2.1 = true
      · simp [pruneTreeOps, h, pruneTreeOps_idem_changed rest]
      · have h' : (pruneTree child).2.1 = false := by
          revert h; cases (pruneTree child).2.1 <;> simp
        have hkeep : (pruneTree (pruneTree child).1).2.1 = false := by
          rw [pruneTree_prunable_eq, pruneTree_allAtts,
            ← pruneTree_prunable_eq, h']
        simp [pruneTreeOps, h', hkeep, pruneTree_idem_changed child,
          pruneTreeOps_idem_changed rest]
end

theorem allAttsOps_isEmpty_eq_all : ∀ l : OpList,
    (allAttestationsOps l).isEmpty =
      l.toList.all (fun p => (pruneTree p.2).2.1)
  | .nil => rfl
  | .cons op child rest => by
      simp [allAttestationsOps, OpList.toList, isEmpty_append,
        allAttsOps_isEmpty_eq_all rest, pruneTree_prunable_eq child]

/-- C2, evaluation of the code at the failing input: in `cexC2` the two
surviving candidates are equal Bitcoin attestations at height 50, one at
true depth cost 1 below the root and one at true depth cost 2, so the
claim requires the depth-1 one to survive.  The code instead keeps the
deeper one and strips the shallower: when the shallow node's own
attestation superseded its child's candidate (height 100, reached over a
9-cost edge), `opt_dep` kept the stale child depth 9, so at the root the
tie was decided as 10 versus 2 and the genuinely shallower attestation was
removed. -/
theorem C2_code_evaluation :
    (discardSuboptimal cexC2 .bitcoinC).1 =
      Timestamp.mk [0] []
        (.cons .sha256
          (.mk [1] []
            (.cons (.append [9, 9, 9, 9, 9, 9, 9, 9]) (.mk [2] [] .nil) .nil))
          (.cons .hexlify
            (.mk [3] [] (.cons .sha256 (.mk [4] [.bitcoin 50] .nil) .nil))
            .nil)) := by
  decide

/-- C4, evaluation of the code at the failing input: the cache pass merges
a fragment that adds a new operation edge (and a child node) but no new
attestation value, so the DAG is mutated — the result differs from the
input — yet `upgrade_timestamp` returns `changed = false`, contradicting
its own docstring "Returns True if the timestamp has changed, False
otherwise". -/
theorem C4_code_evaluation :
    (upgradeTimestamp [] [] noCalendar cache4 10 t4).2 = false ∧
    (upgradeTimestamp [] [] noCalendar cache4 10 t4).1 ≠ t4 := by
  decide

/-- C3: confirmed — with `1 ≤ m ≤ n`, `create_timestamp` succeeds iff at
least `m` of the results drained before the shared deadline are valid
proofs merged into the root; with exactly `m - 1` merged it reports
quorum failure (an error value in this model: the source logs the error
and exits; every per-calendar exception is caught inside the drain
loop and never propagates). -/
theorem C3_confirmed (root : Timestamp) (m n : Nat)
    (results : List SubmitResult) (h1 : 1 ≤ m) (h2 : m ≤ n) :
    ((∃ t, createTimestamp root m n results = .success t) ↔
      m ≤ (drainResults root results).2) ∧
    ((drainResults root results).2 = m - 1 →
      createTimestamp root m n results = .quorumNotMet) := by
  have hgt : decide (m > n) = false := by
    simp only [decide_eq_false_iff_not]
    omega
  have hz : decide (m = 0) = false := by
    simp only [decide_eq_false_iff_not]
    omega
  constructor
  · by_cases hlt : (drainResults root results).2 < m
    · simp only [createTimestamp, hgt, hz, Bool.or_self, Bool.false_or,
        if_pos hlt, if_neg]
      constructor
      · rintro ⟨t, ht⟩
        cases ht
      · omega
    · simp only [createTimestamp, hgt, hz, Bool.or_self, Bool.false_or,
        if_neg hlt, if_neg]
      constructor
      · intro _
        omega
      · exact fun _ => ⟨_, rfl⟩
  · intro hm1
    have hlt : (drainResults root results).2 < m := by omega
    simp only [createTimestamp, hgt, hz, Bool.or_self, Bool.false_or,
      if_pos hlt, if_neg]
    simp

/-- C3, witness: a 2-of-3 run whose drained results hold two valid
fragments and one error. -/
theorem C3_confirmed_witness :
    1 ≤ 2 ∧ 2 ≤ 3 ∧
    (((∃ t, createTimestamp w3root 2 3 w3results = .success t) ↔
        2 ≤ (drainResults w3root w3results).2) ∧
      ((drainResults w3root w3results).2 = 2 - 1 →
        createTimestamp w3root 2 3 w3results = .quorumNotMet)) :=
  ⟨by decide, by decide, C3_confirmed w3root 2 3 w3results (by decide) (by decide)⟩

/-- C8: confirmed — when the requested verification passes, the pruned
proof is persisted exactly on success; "fully prunable" means exactly that
no attestation survives anywhere in the pruned DAG; a fully prunable
result is reported as `failEmpty` without persisting, an unchanged result
as `failUnchanged` without persisting, and the two failure outcomes are
distinct. -/
theorem C8_confirmed (t : Timestamp) (toVerify : List AttClass)
    (toDiscard : List DiscardSpec) (q : Bool) (v : Msg → Nat → Bool)
    (hver : verifyAllAttestations t toVerify q v = true) :
    ((pruneCommand t toVerify toDiscard q v).2 =
        decide ((pruneCommand t toVerify toDiscard q v).1 = .success)) ∧
    ((pruneTimestamp t toDiscard).2.1 = true ↔
        allAttestations (pruneTimestamp t toDiscard).1 = []) ∧
    ((pruneTimestamp t toDiscard).2.1 = true →
        pruneCommand t toVerify toDiscard q v = (.failEmpty, false)) ∧
    ((pruneTimestamp t toDiscard).2.1 = false →
        (pruneTimestamp t toDiscard).2.2 = false →
        pruneCommand t toVerify toDiscard q v = (.failUnchanged, false)) ∧
    PruneOutcome.failEmpty ≠ PruneOutcome.failUnchanged := by
  have hprun : (pruneTimestamp t toDiscard).2.1 =
      (allAttestations (pruneTimestamp t toDiscard).1).isEmpty := by
    simp only [pruneTimestamp]
    rw [pruneTree_prunable_eq, pruneTree_allAtts]
  refine ⟨?_, ?_, ?_, ?_, by decide⟩
  · cases hp : (pruneTimestamp t toDiscard).2.1 <;>
      cases hc : (pruneTimestamp t toDiscard).2.2 <;>
      simp [pruneCommand, hver, hp, hc]
  · rw [hprun]
    exact List.isEmpty_iff
  · intro hp
    simp [pruneCommand, hver, hp]
  · intro hp hc
    simp [pruneCommand, hver, hp, hc]

/-- C8, witness: a proof holding a single pending attestation, pruned with
the default discard (all pending) and no verification request: the result
is fully prunable, reported as `failEmpty` and not persisted. -/
theorem C8_confirmed_witness :
    verifyAllAttestations w8t [] false w8verifier = true ∧
    (((pruneCommand w8t [] [DiscardSpec.pendingClass] false w8verifier).2 =
        decide ((pruneCommand w8t [] [DiscardSpec.pendingClass] false
          w8verifier).1 = .success)) ∧
      ((pruneTimestamp w8t [DiscardSpec.pendingClass]).2.1 = true ↔
        allAttestations (pruneTimestamp w8t [DiscardSpec.pendingClass]).1 =
          []) ∧
      ((pruneTimestamp w8t [DiscardSpec.pendingClass]).2.1 = true →
        pruneCommand w8t [] [DiscardSpec.pendingClass] false w8verifier =
          (.failEmpty, false)) ∧
      ((pruneTimestamp w8t [DiscardSpec.pendingClass]).2.1 = false →
        (pruneTimestamp w8t [DiscardSpec.pendingClass]).2.2 = false →
        pruneCommand w8t [] [DiscardSpec.pendingClass] false w8verifier =
          (.failUnchanged, false)) ∧
      PruneOutcome.failEmpty ≠ PruneOutcome.failUnchanged) :=
  ⟨by decide, C8_confirmed w8t [] [DiscardSpec.pendingClass] false w8verifier
    (by decide)⟩

/-- C9, counterexample: on a DAG holding a Litecoin block-header
attestation at height 5 and a Bitcoin one at height 10, the processing
order puts Bitcoin(10) before Litecoin(5) — the Litecoin chain-header
attestation is keyed `2^32 - 1`, not by its height — so chain-header
attestations are not processed in ascending block-height order. -/
theorem C9_counterexample :
    processedAttestations t9 = [([0], .bitcoin 10), ([0], .litecoin 5)] ∧
    specOrderC9 (processedAttestations t9) = false := by
  constructor <;> decide

theorem perm_insertByKey (p : Msg × Attestation)
    (l : List (Msg × Attestation)) :
    List.Perm (insertByKey p l) (p :: l) := by
  induction l with
  | nil => simp [insertByKey]
  | cons q rest ih =>
      by_cases h : attestationKey q ≤ attestationKey p
      · simp only [insertByKey, if_pos h]
        exact (ih.cons q).trans (List.Perm.swap p q rest)
      · simp [insertByKey, h]

theorem pairwise_insertByKey (p : Msg × Attestation)
    (l : List (Msg × Attestation))
    (hl : l.Pairwise (fun a b => attestationKey a ≤ attestationKey b)) :
    (insertByKey p l).Pairwise
      (fun a b => attestationKey a ≤ attestationKey b) := by
  induction l with
  | nil => simp [insertByKey]
  | cons q rest ih =>
      rcases List.pairwise_cons.mp hl with ⟨hq, hrest⟩
      by_cases h : attestationKey q ≤ attestationKey p
      · simp only [insertByKey, if_pos h]
        refine List.pairwise_cons.mpr ⟨?_, ih hrest⟩
        intro b hb
        rcases List.mem_cons.mp ((perm_insertByKey p rest).mem_iff.mp hb)
          with hb | hb
        · subst hb
          exact h
        · exact hq b hb
      · simp only [insertByKey, if_neg h]
        refine List.pairwise_cons.mpr ⟨?_, hl⟩
        intro b hb
        have hpq : attestationKey p ≤ attestationKey q := le_of_not_le h
        rcases List.mem_cons.mp hb with hb | hb
        · exact hb ▸ hpq
        · exact hpq.trans (hq b hb)

theorem sortByKey_perm : ∀ l : List (Msg × Attestation),
    List.Perm (sortByKey l) l
  | [] => List.Perm.refl []
  | p :: rest => (perm_insertByKey p _).trans ((sortByKey_perm rest).cons p)

theorem sortByKey_pairwise : ∀ l : List (Msg × Attestation),
    (sortByKey l).Pairwise (fun a b => attestationKey a ≤ attestationKey b)
  | [] => List.Pairwise.nil
  | p :: rest => pairwise_insertByKey p _ (sortByKey_pairwise rest)

/-- C9, amended: the Verification Engine processes the attestations of the
DAG as a permutation of all of them sorted (stably) by the source's key —
a **Bitcoin** block-header attestation sorts by its block height, and
every other attestation, including chain-header attestations of other
chains such as Litecoin, gets the maximal key `2^32 - 1`.  Hence Bitcoin
attestations are processed in ascending height order, and everything else
comes after every Bitcoin attestation of height below `2^32 - 1`; other
chains' headers are not ordered by their height. -/
theorem C9_amended (t : Timestamp) :
    (processedAttestations t).Pairwise
      (fun p q => attestationKey p ≤ attestationKey q) ∧
    List.Perm (processedAttestations t) (allAttestations t) :=
  ⟨sortByKey_pairwise _, sortByKey_perm _⟩

theorem verifyLoop_invariant (k : Nat) (ex : Nat → ExplorerResult) :
    ∀ (l : List (Msg × Attestation)) (times : List Nat),
      (verifyLoop k ex l times).1.length ≤ max k times.length ∧
      (verifyLoop k ex l times).1.length =
        times.length +
          (verifyLoop k ex l times).2.countP
            (fun e => e matches VerifyEvent.attested _)
  | [], times => by simp [verifyLoop]
  | (msg, att) :: rest, times => by
      cases att with
      | bitcoin h =>
          by_cases hk : k ≤ times.length
          · have ih := verifyLoop_invariant k ex rest times
            simp only [verifyLoop, if_pos hk, List.countP_cons]
            constructor
            · exact ih.1
            · simpa using ih.2
          · simp only [verifyLoop, if_neg hk]
            cases hex : ex h with
            | failure =>
                have ih := verifyLoop_invariant k ex rest times
                simp only [List.countP_cons]
                constructor
                · exact ih.1
                · simpa using ih.2
            | ok time root =>
                by_cases hroot : root = msg
                · have ih := verifyLoop_invariant k ex rest (times ++ [time])
                  simp only [if_pos hroot, List.countP_cons,
                    List.length_append, List.length_cons,
                    List.length_nil] at ih ⊢
                  constructor
                  · refine ih.1.trans ?_
                    omega
                  · rw [ih.2]
                    simp
                    omega
                · have ih := verifyLoop_invariant k ex rest times
                  simp only [if_neg hroot, List.countP_cons]
                  constructor
                  · exact ih.1
                  · simpa using ih.2
      | pending uri =>
          have ih := verifyLoop_invariant k ex rest times
          simp only [verifyLoop, List.countP_cons]
          exact ⟨ih.1, by simpa using ih.2⟩
      | litecoin h =>
          have ih := verifyLoop_invariant k ex rest times
          simp only [verifyLoop, List.countP_cons]
          exact ⟨ih.1, by simpa using ih.2⟩
      | unknown payload =>
          have ih := verifyLoop_invariant k ex rest times
          simp only [verifyLoop, List.countP_cons]
          exact ⟨ih.1, by simpa using ih.2⟩

theorem verifyLoop_saturated (k : Nat) (ex : Nat → ExplorerResult) :
    ∀ (l : List (Msg × Attestation)) (times : List Nat),
      k ≤ times.length →
      (verifyLoop k ex l times).1 = times ∧
      ∀ e ∈ (verifyLoop k ex l times).2,
        e = VerifyEvent.skippedManual ∨ e = VerifyEvent.ignored
  | [], times, _ => by simp [verifyLoop]
  | (msg, att) :: rest, times, hk => by
      have ih := verifyLoop_saturated k ex rest times hk
      cases att with
      | bitcoin h =>
          simp only [verifyLoop, if_pos hk, List.mem_cons]
          refine ⟨ih.1, ?_⟩
          rintro e (rfl | he)
          · exact Or.inl rfl
          · exact ih.2 e he
      | pending uri =>
          simp only [verifyLoop, List.mem_cons]
          refine ⟨ih.1, ?_⟩
          rintro e (rfl | he)
          · exact Or.inr rfl
          · exact ih.2 e he
      | litecoin h =>
          simp only [verifyLoop, List.mem_cons]
          refine ⟨ih.1, ?_⟩
          rintro e (rfl | he)
          · exact Or.inr rfl
          · exact ih.2 e he
      | unknown payload =>
          simp only [verifyLoop, List.mem_cons]
          refine ⟨ih.1, ?_⟩
          rintro e (rfl | he)
          · exact Or.inr rfl
          · exact ih.2 e he

/-- C10: confirmed — with remote explorer querying enabled with limit
`k ≥ 1`, the run collects at most `k` attested times; the number of
collected times equals the number of successful (merkle-matching) explorer
queries, so failed queries never count toward the limit; and from any
state where `k` times have already been collected, every remaining
attestation is either skipped with manual instructions (Bitcoin
block-header attestations, without being queried) or ignored (all
others), and no further time is collected. -/
theorem C10_confirmed (k : Nat) (ex : Nat → ExplorerResult) (t : Timestamp)
    (hk : 1 ≤ k) :
    (verifyTimestampRemote k ex t).1.length ≤ k ∧
    (verifyTimestampRemote k ex t).1.length =
      (verifyTimestampRemote k ex t).2.countP
        (fun e => e matches VerifyEvent.attested _) ∧
    ∀ (l : List (Msg × Attestation)) (times : List Nat),
      k ≤ times.length →
      (verifyLoop k ex l times).1 = times ∧
      ∀ e ∈ (verifyLoop k ex l times).2,
        e = VerifyEvent.skippedManual ∨ e = VerifyEvent.ignored := by
  have hinv := verifyLoop_invariant k ex (processedAttestations t) []
  refine ⟨?_, ?_, verifyLoop_saturated k ex⟩
  · simpa [verifyTimestampRemote] using hinv.1
  · simpa [verifyTimestampRemote] using hinv.2

/-- C10, witness: limit 1, one Bitcoin attestation, an explorer confirming
it. -/
theorem C10_confirmed_witness :
    1 ≤ 1 ∧
    ((verifyTimestampRemote 1 w10explorer w10t).1.length ≤ 1 ∧
      (verifyTimestampRemote 1 w10explorer w10t).1.length =
        (verifyTimestampRemote 1 w10explorer w10t).2.countP
          (fun e => e matches VerifyEvent.attested _) ∧
      ∀ (l : List (Msg × Attestation)) (times : List Nat),
        1 ≤ times.length →
        (verifyLoop 1 w10explorer l times).1 = times ∧
        ∀ e ∈ (verifyLoop 1 w10explorer l times).2,
          e = VerifyEvent.skippedManual ∨ e = VerifyEvent.ignored) :=
  ⟨by decide, C10_confirmed 1 w10explorer w10t (by decide)⟩

mutual
theorem mem_directlyVerified_iff : ∀ (t : Timestamp) (s : Timestamp),
    s ∈ directlyVerified t ↔
      ∃ path, followIdx t path = some s ∧
        s.attestations.isEmpty = false ∧
        ∀ p1 p2, path = p1 ++ p2 → p2 ≠ [] →
          ∃ u, followIdx t p1 = some u ∧ u.attestations.isEmpty = true
  | .mk m atts ops, s => by
      by_cases hatts : atts.isEmpty = true
      · rw [show directlyVerified (.mk m atts ops) = directlyVerifiedOps ops
            from by simp [directlyVerified, hatts]]
        rw [mem_directlyVerifiedOps_iff ops s]
        constructor
        · rintro ⟨i, c, path, hci, hf, hne, hpre⟩
          refine ⟨i :: path, ?_, hne, ?_⟩
          · simp [followIdx, Timestamp.ops, hci, hf]
          · rintro p1 p2 hsplit hne2
            cases p1 with
            | nil =>
                exact ⟨.mk m atts ops, rfl, by
                  simpa [Timestamp.attestations] using hatts⟩
            | cons i' p1' =>
                rw [List.cons_append] at hsplit
                injection hsplit with hi hpath
                subst hi
                obtain ⟨u, hu, hue⟩ := hpre p1' p2 hpath hne2
                exact ⟨u, by simp [followIdx, Timestamp.ops, hci, hu], hue⟩
        · rintro ⟨path, hf, hne, hpre⟩
          cases path with
          | nil =>
              rw [followIdx] at hf
              injection hf with hf
              rw [← hf] at hne
              simp [Timestamp.attestations] at hne
              exact absurd (List.isEmpty_iff.mp hatts) hne
          | cons i path' =>
              rw [followIdx] at hf
              simp only [Timestamp.ops] at hf
              cases hci : ops.childAt i with
              | none => rw [hci] at hf; cases hf
              | some c =>
                  rw [hci] at hf
                  refine ⟨i, c, path', hci, hf, hne, ?_⟩
                  rintro p1 p2 hpath hne2
                  obtain ⟨u, hu, hue⟩ :=
                    hpre (i :: p1) p2 (by rw [hpath, List.cons_append]) hne2
                  refine ⟨u, ?_, hue⟩
                  rw [followIdx] at hu
                  simp only [Timestamp.ops, hci] at hu
                  exact hu
      · rw [show directlyVerified (.mk m atts ops) = [.mk m atts ops]
            from by simp [directlyVerified, hatts]]
        have hattsf : atts.isEmpty = false := by
          revert hatts
          cases atts.isEmpty <;> simp
        constructor
        · intro hs
          rcases List.mem_singleton.mp hs with rfl
          refine ⟨[], rfl, by simpa [Timestamp.attestations] using hattsf, ?_⟩
          rintro p1 p2 hsplit hne2
          rcases List.append_eq_nil.mp hsplit.symm with ⟨_, rfl⟩
          cases hne2 rfl
        · rintro ⟨path, hf, hne, hpre⟩
          cases path with
          | nil =>
              rw [followIdx] at hf
              injection hf with hf
              rw [hf]
              exact List.mem_singleton.mpr rfl
          | cons i path' =>
              obtain ⟨u, hu, hue⟩ :=
                hpre [] (i :: path') rfl (List.cons_ne_nil i path')
              rw [followIdx] at hu
              injection hu with hu
              rw [← hu] at hue
              simp [Timestamp.attestations] at hue
              rw [hue] at hattsf
              cases hattsf
theorem mem_directlyVerifiedOps_iff : ∀ (l : OpList) (s : Timestamp),
    s ∈ directlyVerifiedOps l ↔
      ∃ i c path, l.childAt i = some c ∧ followIdx c path = some s ∧
        s.attestations.isEmpty = false ∧
        ∀ p1 p2, path = p1 ++ p2 → p2 ≠ [] →
          ∃ u, followIdx c p1 = some u ∧ u.attestations.isEmpty = true
  | .nil, s => by
      constructor
      · intro hs
        cases hs
      · rintro ⟨i, c, path, hci, _⟩
        cases i <;> cases hci
  | .cons op c r, s => by
      rw [show directlyVerifiedOps (.cons op c r) =
          directlyVerified c ++ directlyVerifiedOps r from rfl]
      rw [List.mem_append, mem_directlyVerified_iff c s,
        mem_directlyVerifiedOps_iff r s]
      constructor
      · rintro (⟨path, hf, hne, hpre⟩ | ⟨i, c', path, hci, hf, hne, hpre⟩)
        · exact ⟨0, c, path, rfl, hf, hne, hpre⟩
        · exact ⟨i + 1, c', path, hci, hf, hne, hpre⟩
      · rintro ⟨i, c', path, hci, hf, hne, hpre⟩
        cases i with
        | zero =>
            rw [OpList.childAt] at hci
            injection hci with hci
            subst hci
            exact Or.inl ⟨path, hf, hne, hpre⟩
        | succ i =>
            rw [OpList.childAt] at hci
            exact Or.inr ⟨i, c', path, hci, hf, hne, hpre⟩
end

/-- C5, counterexample: in `t5` the node with digest `[1]` carries a
whitelisted pending attestation and has no deeper attestation below it, so
the claim says its digest is looked up at a calendar; but it sits strictly
below the root, which itself carries attestations, and `directly_verified`
stops at the root: only the root digest `[0]` is queried. -/
theorem C5_counterexample :
    queriedMsgs [] ["u1", "u2"] t5 = [[0]] ∧
    ¬([1] ∈ queriedMsgs [] ["u1", "u2"] t5) ∧
    (∃ s, followIdx t5 [0] = some s ∧ s.msg = [1] ∧
      s.attestations.any (pendingResolves [] ["u1", "u2"]) = true) :=
  ⟨by decide, by decide,
    ⟨.mk [1] [.pending "u2"] .nil, by decide, by decide, by decide⟩⟩

/-- C5, amended: during a network pass the set of digests looked up at a
calendar is exactly the set of digests of the *shallowest*
attestation-carrying nodes — nodes that carry at least one attestation,
every strict ancestor of which carries none — that hold at least one
pending attestation whose calendar resolves (override list nonempty, or
URI whitelisted).  A node carrying a pending attestation strictly below
another attestation-carrying node is not queried. -/
theorem C5_amended (urls wl : List String) (t : Timestamp) (m : Msg) :
    m ∈ queriedMsgs urls wl t ↔
      ∃ path s, followIdx t path = some s ∧ s.msg = m ∧
        s.attestations.isEmpty = false ∧
        s.attestations.any (pendingResolves urls wl) = true ∧
        ∀ p1 p2, path = p1 ++ p2 → p2 ≠ [] →
          ∃ u, followIdx t p1 = some u ∧ u.attestations.isEmpty = true := by
  simp only [queriedMsgs, List.mem_filterMap]
  constructor
  · rintro ⟨s, hs, hif⟩
    by_cases hany : s.attestations.any (pendingResolves urls wl) = true
    · rw [if_pos hany] at hif
      injection hif with hm
      obtain ⟨path, hf, hne, hpre⟩ := (mem_directlyVerified_iff t s).mp hs
      exact ⟨path, s, hf, hm, hne, hany, hpre⟩
    · rw [if_neg hany] at hif
      cases hif
  · rintro ⟨path, s, hf, hm, hne, hany, hpre⟩
    refine ⟨s, (mem_directlyVerified_iff t s).mpr ⟨path, hf, hne, hpre⟩, ?_⟩
    rw [if_pos hany, hm]

/-- C6: confirmed — `prune_tree` (i) reports a node prunable exactly when
its subtree carries zero attestations; (ii) removes no attestation
whatsoever (so it never removes a subtree containing a surviving
attestation); (iii) detaches from the parent's operation mapping exactly
those child subtrees carrying zero attestations, keeping the others
(recursively pruned) in order; (iv) reports the node prunable exactly when
it has no attestations of its own and every child was pruned; and (v) a
second run on the pruned result reports `changed = false`. -/
theorem C6_confirmed (m : Msg) (atts : List Attestation) (ops : OpList) :
    ((pruneTree (.mk m atts ops)).2.1 = true ↔
      allAttestations (.mk m atts ops) = []) ∧
    allAttestations (pruneTree (.mk m atts ops)).1 =
      allAttestations (.mk m atts ops) ∧
    (pruneTree (.mk m atts ops)).1.ops.toList =
      (ops.toList.filter (fun p => !(allAttestations p.2).isEmpty)).map
        (fun p => (p.1, (pruneTree p.2).1)) ∧
    (pruneTree (.mk m atts ops)).2.1 =
      (atts.isEmpty && ops.toList.all (fun p => (pruneTree p.2).2.1)) ∧
    (pruneTree (pruneTree (.mk m atts ops)).1).2.2 = false := by
  refine ⟨?_, pruneTree_allAtts _, ?_, ?_, pruneTree_idem_changed _⟩
  · rw [pruneTree_prunable_eq]
    exact List.isEmpty_iff
  · simp [pruneTree, Timestamp.ops, pruneTreeOps_toList ops]
  · rw [pruneTree_prunable_eq]
    simp [allAttestations, isEmpty_append, isEmpty_map,
      allAttsOps_isEmpty_eq_all ops]

end OtsClient
